import Mathlib

/-!
Verification of the simulation-and-layout core of the bandwidth monitor
(`src/main.cpp`).  Floating-point values are modelled as exact rationals;
the pseudorandom generator is modelled as a stream of normalized draws
`u : ℕ → ℚ` with `0 ≤ u i < 1`, so that `uniform_real_distribution(a, b)`
yields `a + u * (b - a)` (its standard definition).  Window, event and text
rendering are thin platform collaborators and are abstracted away; the
geometry they are handed is modelled exactly.
-/

namespace BandwidthMonitor

/-- `Connection` (src/main.cpp lines 10-27): an identifier and the current
simulated transfer rate in bytes per second. -/
structure Connection where
  id : String
  transferRate : ℚ
  deriving DecidableEq

/-- `BandwidthMonitor::width = 1600`. -/
def width : ℚ := 1600

/-- `BandwidthMonitor::height = 1200`. -/
def height : ℚ := 1200

/-- `BandwidthMonitor::minRate = 1000.0f`. -/
def minRate : ℚ := 1000

/-- `BandwidthMonitor::maxRate = 5000.0f`. -/
def maxRate : ℚ := 5000

/-- `main` constructs the monitor with 5 connections (src/main.cpp line 125). -/
def numConnections : ℕ := 5

/-- `Connection::simulateTransfer` (lines 19-23): the new rate is a draw from
`uniform_real_distribution(minRate, maxRate)`, i.e. `minR + u * (maxR - minR)`
where `u` is the generator's normalized output in `[0,1)`. -/
def Connection.simulateTransfer (c : Connection) (minR maxR u : ℚ) : Connection :=
  { c with transferRate := minR + u * (maxR - minR) }

/-- The loop body of `BandwidthMonitor::simulateAll` (lines 77-81), with the
shared generator modelled as the stream `u` read at successive indices. -/
def simulateAllFrom (u : ℕ → ℚ) : ℕ → List Connection → List Connection
  | _, [] => []
  | k, c :: rest => c.simulateTransfer minRate maxRate (u k) :: simulateAllFrom u (k + 1) rest

/-- `BandwidthMonitor::simulateAll`: re-draw every connection's rate. -/
def simulateAll (conns : List Connection) (u : ℕ → ℚ) : List Connection :=
  simulateAllFrom u 0 conns

/-- Iterating the `run` loop's simulation step: `runTicks conns us n` is the
connection list after `n` ticks, where `us t` is the generator stream consumed
at tick `t`. -/
def runTicks (conns : List Connection) (us : ℕ → ℕ → ℚ) : ℕ → List Connection
  | 0 => conns
  | n + 1 => simulateAll (runTicks conns us n) (us n)

/-- One step of the `maxTransfer` fold in `drawAll` (lines 88-91):
`if (conn.getRate() > maxTransfer) maxTransfer = conn.getRate();`. -/
def maxStep (m : ℚ) (c : Connection) : ℚ :=
  if c.transferRate > m then c.transferRate else m

/-- The normalization maximum of `drawAll`: a fold over the snapshot
starting at `0.0f`. -/
def maxTransfer (conns : List Connection) : ℚ :=
  conns.foldl maxStep 0

/-- The geometry `drawAll` computes for one bar: the rectangle's width and
height, its position, and the label anchor. -/
structure BarGeom where
  barWidth : ℚ
  barHeight : ℚ
  x : ℚ
  y : ℚ
  labelX : ℚ
  labelY : ℚ
  deriving DecidableEq

/-- The per-bar geometry of `drawAll` (lines 93-113) for channel index `i`
with rate `r`, normalization maximum `m` and channel count `n`:
`barWidth = width / (n * 2)`, `barHeight = (r / m) * (height - 100)`,
`x = i * 2 * barWidth + barWidth / 2`, `y = height - barHeight`, and the
label is placed at `(x, y - 20)`. -/
def layoutBar (n i : ℕ) (r m : ℚ) : BarGeom :=
  let bw : ℚ := width / ((n : ℚ) * 2)
  let bh : ℚ := r / m * (height - 100)
  let xx : ℚ := (i : ℚ) * 2 * bw + bw / 2
  let yy : ℚ := height - bh
  { barWidth := bw, barHeight := bh, x := xx, y := yy, labelX := xx, labelY := yy - 20 }

/-- The indexed loop of `drawAll` over the snapshot. -/
def layoutFrom (n : ℕ) (m : ℚ) : ℕ → List Connection → List BarGeom
  | _, [] => []
  | i, c :: rest => layoutBar n i c.transferRate m :: layoutFrom n m (i + 1) rest

/-- The full layout computation of `drawAll`: normalization maximum over the
snapshot, then per-channel geometry. -/
def layout (conns : List Connection) : List BarGeom :=
  layoutFrom conns.length (maxTransfer conns) 0 conns

/-- The bar-height computation with its division tracked: C++ float division
`r / m` with `m = 0` yields no meaningful real number (IEEE NaN for `0/0`),
so a zero divisor is marked `none` rather than given a junk value. -/
def barHeightChecked (r m : ℚ) : Option ℚ :=
  if m = 0 then none else some (r / m * (height - 100))

/-- The constructor loop (lines 45-48): `n` connections with identifiers
`"Conn-1"`, ..., `"Conn-n"`, each with `transferRate = 0.0f` (line 16). -/
def mkConnections (n : ℕ) : List Connection :=
  (List.range n).map (fun i => { id := "Conn-" ++ toString (i + 1), transferRate := 0 })

/-- `BandwidthMonitor::BandwidthMonitor` (lines 42-54): build the connections,
then load the font.  The SFML call `font.loadFromFile(...)` is external, so its
outcome is modelled by the Boolean `fontLoads`; on failure the constructor
throws `std::runtime_error("Font file not found.")`. -/
def constructMonitor (n : ℕ) (fontLoads : Bool) : Except String (List Connection) :=
  if fontLoads then Except.ok (mkConnections n)
  else Except.error "Font file not found."

/-- `main` (lines 123-132): construct the monitor for 5 connections and run
until the window closes.  Returns the exit status and the line written to the
error stream (`"Error: " << e.what()`, trailing newline omitted); the `run`
loop itself terminates on the external close signal and adds nothing to either.
-/
def mainEntry (fontLoads : Bool) : ℕ × Option String :=
  match constructMonitor numConnections fontLoads with
  | Except.ok _ => (0, none)
  | Except.error e => (1, some ("Error: " ++ e))

/-! ### Helper lemmas -/

theorem maxStep_le_self (m : ℚ) (c : Connection) : m ≤ maxStep m c := by
  unfold maxStep
  split
  · exact le_of_lt (by assumption)
  · exact le_refl m

theorem rate_le_maxStep (m : ℚ) (c : Connection) : c.transferRate ≤ maxStep m c := by
  unfold maxStep
  split
  · exact le_refl _
  · exact le_of_not_lt (by assumption)

theorem le_foldl_maxStep (l : List Connection) : ∀ a : ℚ, a ≤ l.foldl maxStep a := by
  induction l with
  | nil => intro a; exact le_refl a
  | cons c rest ih =>
    intro a
    exact le_trans (maxStep_le_self a c) (ih (maxStep a c))

theorem rate_le_foldl_maxStep (l : List Connection) :
    ∀ (a : ℚ) (c : Connection), c ∈ l → c.transferRate ≤ l.foldl maxStep a := by
  induction l with
  | nil => intro a c hc; cases hc
  | cons d rest ih =>
    intro a c hc
    rcases List.mem_cons.mp hc with h | h
    · subst h
      exact le_trans (rate_le_maxStep a c) (le_foldl_maxStep rest (maxStep a c))
    · exact ih (maxStep a d) c h

theorem maxTransfer_nonneg (conns : List Connection) : 0 ≤ maxTransfer conns :=
  le_foldl_maxStep conns 0

theorem rate_le_maxTransfer (conns : List Connection) (c : Connection) (hc : c ∈ conns) :
    c.transferRate ≤ maxTransfer conns :=
  rate_le_foldl_maxStep conns 0 c hc

theorem simulateAllFrom_rates_in_range (u : ℕ → ℚ) (hu : ∀ i, 0 ≤ u i ∧ u i < 1) :
    ∀ (conns : List Connection) (k : ℕ),
      ∀ c ∈ simulateAllFrom u k conns, minRate ≤ c.transferRate ∧ c.transferRate ≤ maxRate := by
  intro conns
  induction conns with
  | nil => intro k c hc; cases hc
  | cons d rest ih =>
    intro k c hc
    rcases List.mem_cons.mp hc with h | h
    · subst h
      obtain ⟨h0, h1⟩ := hu k
      unfold Connection.simulateTransfer minRate maxRate
      constructor
      · simp only
        nlinarith
      · simp only
        nlinarith
    · exact ih (k + 1) c h

theorem simulateAllFrom_map_id (u : ℕ → ℚ) :
    ∀ (conns : List Connection) (k : ℕ),
      (simulateAllFrom u k conns).map Connection.id = conns.map Connection.id := by
  intro conns
  induction conns with
  | nil => intro k; rfl
  | cons d rest ih =>
    intro k
    simp [simulateAllFrom, Connection.simulateTransfer, ih (k + 1)]

theorem simulateAllFrom_length (u : ℕ → ℚ) :
    ∀ (conns : List Connection) (k : ℕ),
      (simulateAllFrom u k conns).length = conns.length := by
  intro conns
  induction conns with
  | nil => intro k; rfl
  | cons d rest ih =>
    intro k
    simp [simulateAllFrom, ih (k + 1)]

theorem layoutFrom_length (n : ℕ) (m : ℚ) :
    ∀ (conns : List Connection) (k : ℕ), (layoutFrom n m k conns).length = conns.length := by
  intro conns
  induction conns with
  | nil => intro k; rfl
  | cons d rest ih =>
    intro k
    simp [layoutFrom, ih (k + 1)]

theorem layout_length (conns : List Connection) : (layout conns).length = conns.length :=
  layoutFrom_length conns.length (maxTransfer conns) conns 0

theorem layoutFrom_get (n : ℕ) (m : ℚ) :
    ∀ (conns : List Connection) (k i : ℕ) (h : i < (layoutFrom n m k conns).length)
      (h2 : i < conns.length),
      (layoutFrom n m k conns).get ⟨i, h⟩
        = layoutBar n (k + i) (conns.get ⟨i, h2⟩).transferRate m := by
  intro conns
  induction conns with
  | nil => intro k i h h2; cases h2
  | cons d rest ih =>
    intro k i h h2
    cases i with
    | zero => rfl
    | succ j =>
      have hj : j < rest.length := Nat.lt_of_succ_lt_succ h2
      have hjl : j < (layoutFrom n m (k + 1) rest).length := by
        rw [layoutFrom_length n m rest (k + 1)]
        exact hj
      simp only [layoutFrom, List.get]
      rw [ih (k + 1) j hjl hj]
      congr 1
      omega

theorem layout_get (conns : List Connection) (i : ℕ) (h : i < (layout conns).length)
    (h2 : i < conns.length) :
    (layout conns).get ⟨i, h⟩
      = layoutBar conns.length i (conns.get ⟨i, h2⟩).transferRate (maxTransfer conns) := by
  have := layoutFrom_get conns.length (maxTransfer conns) conns 0 i h h2
  simpa [layout] using this

theorem mem_layoutFrom (n : ℕ) (m : ℚ) :
    ∀ (conns : List Connection) (k : ℕ) (g : BarGeom), g ∈ layoutFrom n m k conns →
      ∃ c ∈ conns, ∃ i : ℕ, g = layoutBar n i c.transferRate m := by
  intro conns
  induction conns with
  | nil => intro k g hg; cases hg
  | cons d rest ih =>
    intro k g hg
    rcases List.mem_cons.mp hg with h | h
    · exact ⟨d, List.mem_cons_self d rest, k, h⟩
    · obtain ⟨c, hc, i, hi⟩ := ih (k + 1) g h
      exact ⟨c, List.mem_cons_of_mem d hc, i, hi⟩

theorem maxTransfer_congr (c₁ c₂ : List Connection)
    (h : c₁.map Connection.transferRate = c₂.map Connection.transferRate) :
    maxTransfer c₁ = maxTransfer c₂ := by
  unfold maxTransfer
  have e1 : ∀ l : List Connection,
      l.foldl maxStep 0
        = (l.map Connection.transferRate).foldl (fun m r => if r > m then r else m) 0 := by
    intro l
    rw [List.foldl_map]
    rfl
  rw [e1 c₁, e1 c₂, h]

theorem layoutFrom_congr (n : ℕ) (m : ℚ) :
    ∀ (c₁ c₂ : List Connection) (k : ℕ),
      c₁.map Connection.transferRate = c₂.map Connection.transferRate →
      layoutFrom n m k c₁ = layoutFrom n m k c₂ := by
  intro c₁
  induction c₁ with
  | nil =>
    intro c₂ k h
    have : c₂.map Connection.transferRate = [] := h.symm
    have hc2 : c₂ = [] := List.map_eq_nil_iff.mp this
    rw [hc2]
  | cons d rest ih =>
    intro c₂ k h
    cases c₂ with
    | nil => cases h
    | cons e rest2 =>
      simp only [List.map_cons, List.cons.injEq] at h
      simp only [layoutFrom, h.1, ih rest2 (k + 1) h.2]

/-! ### Claim theorems -/

/-- C1: after every simulation tick (`simulateAll` calling `simulateTransfer`
on each connection), every channel's rate lies in the closed interval
`[minRate, maxRate]` (1000 to 5000), and this holds after every subsequent
tick: for every tick count `n ≥ 1` and every stream of valid generator draws,
every connection of the resulting state is in range. -/
theorem rates_in_range_after_every_tick (conns : List Connection) (us : ℕ → ℕ → ℚ)
    (hu : ∀ t i, 0 ≤ us t i ∧ us t i < 1) (n : ℕ) (hn : 0 < n) :
    ∀ c ∈ runTicks conns us n, minRate ≤ c.transferRate ∧ c.transferRate ≤ maxRate := by
  obtain ⟨m, rfl⟩ : ∃ m, n = m + 1 := ⟨n - 1, by omega⟩
  intro c hc
  simp only [runTicks, simulateAll] at hc
  exact simulateAllFrom_rates_in_range (us m) (hu m) (runTicks conns us m) 0 c hc

/-- Witness for C1: one tick from a single-connection state with the all-zero
draw stream; the resulting connection carries rate `1000 + 0 * (5000 - 1000)`.
-/
theorem rates_in_range_after_every_tick_witness :
    minRate ≤ ((Connection.mk "c" 0).simulateTransfer minRate maxRate 0).transferRate ∧
      ((Connection.mk "c" 0).simulateTransfer minRate maxRate 0).transferRate ≤ maxRate :=
  rates_in_range_after_every_tick [Connection.mk "c" 0] (fun _ _ => 0)
    (fun _ _ => ⟨le_refl 0, by norm_num⟩) 1 Nat.one_pos
    ((Connection.mk "c" 0).simulateTransfer minRate maxRate 0)
    (by simp [runTicks, simulateAll, simulateAllFrom])

/-- C2 counterexample: on the all-zero snapshot `mkConnections 1` (every rate
`0`, as right after construction) the normalization divisor is `0` (hence
`≤ 0`), yet the layout's height computation performs the division `0 / 0`
(marked `none` by `barHeightChecked`) instead of producing height `0`: the
defensive zero-divisor policy is absent from the code. -/
theorem zero_divisor_defensive_policy_cex :
    ¬ (maxTransfer (mkConnections 1) ≤ 0 →
        ∀ c ∈ mkConnections 1,
          barHeightChecked c.transferRate (maxTransfer (mkConnections 1)) = some 0) := by
  intro h
  have h0 : maxTransfer (mkConnections 1) = 0 := by
    norm_num [maxTransfer, mkConnections, List.range_succ, maxStep]
  have hc : ({ id := "Conn-" ++ toString (0 + 1), transferRate := 0 } : Connection)
      ∈ mkConnections 1 := by
    simp [mkConnections, List.range_succ]
  have h2 := h (le_of_eq h0) _ hc
  rw [h0] at h2
  simp [barHeightChecked] at h2

/-- C2 amended: the normalization divisor is never negative, and on every
snapshot the program actually draws (in `run`, `drawAll` always follows
`simulateAll`, so each drawn snapshot is a `simulateAll` result) the divisor
is strictly positive and every bar-height division is defined — no division
by zero occurs at runtime. -/
theorem divisor_pos_on_drawn_snapshots (conns : List Connection) (u : ℕ → ℚ)
    (hu : ∀ i, 0 ≤ u i ∧ u i < 1) (hne : conns ≠ []) :
    0 ≤ maxTransfer conns ∧
    0 < maxTransfer (simulateAll conns u) ∧
    ∀ c ∈ simulateAll conns u,
      barHeightChecked c.transferRate (maxTransfer (simulateAll conns u)) ≠ none := by
  have hpos : 0 < maxTransfer (simulateAll conns u) := by
    obtain ⟨d, rest, rfl⟩ : ∃ d rest, conns = d :: rest := by
      cases conns with
      | nil => exact absurd rfl hne
      | cons d rest => exact ⟨d, rest, rfl⟩
    have hmem : d.simulateTransfer minRate maxRate (u 0) ∈ simulateAll (d :: rest) u := by
      simp [simulateAll, simulateAllFrom]
    have hrange := simulateAllFrom_rates_in_range u hu (d :: rest) 0 _ hmem
    have hle := rate_le_maxTransfer _ _ hmem
    have hmin : (0:ℚ) < minRate := by norm_num [minRate]
    linarith [hrange.1]
  refine ⟨maxTransfer_nonneg conns, hpos, ?_⟩
  intro c hc
  unfold barHeightChecked
  rw [if_neg (ne_of_gt hpos)]
  exact Option.some_ne_none _

/-- Witness for the amended C2: the drawn snapshot after one tick of the
single-connection state has a strictly positive divisor. -/
theorem divisor_pos_on_drawn_snapshots_witness :
    0 < maxTransfer (simulateAll [Connection.mk "c" 0] (fun _ => 0)) :=
  (divisor_pos_on_drawn_snapshots [Connection.mk "c" 0] (fun _ => 0)
    (fun _ => ⟨le_refl 0, by norm_num⟩) (List.cons_ne_nil _ _)).2.1

/-- C3: for every channel index `i` in a snapshot of `N` channels, the layout
computes `barWidth = width / (2 N)`, bar `x = i * 2 * barWidth + barWidth / 2`
and bar `y = height - barHeight`. -/
theorem bar_geometry_formulas (conns : List Connection) (i : ℕ)
    (h : i < (layout conns).length) (h2 : i < conns.length) :
    ((layout conns).get ⟨i, h⟩).barWidth = width / (2 * conns.length) ∧
    ((layout conns).get ⟨i, h⟩).x
      = (i : ℚ) * 2 * ((layout conns).get ⟨i, h⟩).barWidth
        + ((layout conns).get ⟨i, h⟩).barWidth / 2 ∧
    ((layout conns).get ⟨i, h⟩).y = height - ((layout conns).get ⟨i, h⟩).barHeight := by
  rw [layout_get conns i h h2]
  refine ⟨?_, ?_, ?_⟩
  · show width / ((conns.length : ℚ) * 2) = width / (2 * (conns.length : ℚ))
    rw [mul_comm]
  · rfl
  · rfl

/-- Witness for C3 at the spec's scenario: 5 channels, index 2. -/
theorem bar_geometry_formulas_witness :
    ((layout (mkConnections 5)).get ⟨2, by decide⟩).barWidth
      = width / (2 * (mkConnections 5).length) ∧
    ((layout (mkConnections 5)).get ⟨2, by decide⟩).x
      = (2 : ℚ) * 2 * ((layout (mkConnections 5)).get ⟨2, by decide⟩).barWidth
        + ((layout (mkConnections 5)).get ⟨2, by decide⟩).barWidth / 2 ∧
    ((layout (mkConnections 5)).get ⟨2, by decide⟩).y
      = height - ((layout (mkConnections 5)).get ⟨2, by decide⟩).barHeight :=
  bar_geometry_formulas (mkConnections 5) 2 (by decide) (by decide)

/-- C4: when every rate of the snapshot lies in `[minRate, maxRate]` (and
`minRate = 1000 > 0`), every computed bar height lies in `[0, height - 100]`.
-/
theorem bar_height_bounded (conns : List Connection)
    (hr : ∀ c ∈ conns, minRate ≤ c.transferRate ∧ c.transferRate ≤ maxRate) :
    ∀ g ∈ layout conns, 0 ≤ g.barHeight ∧ g.barHeight ≤ height - 100 := by
  intro g hg
  obtain ⟨c, hc, i, rfl⟩ := mem_layoutFrom conns.length (maxTransfer conns) conns 0 g hg
  have hcr := hr c hc
  have hle := rate_le_maxTransfer conns c hc
  have hmin : (0:ℚ) < minRate := by norm_num [minRate]
  have hmpos : 0 < maxTransfer conns := by linarith [hcr.1]
  have hratio0 : 0 ≤ c.transferRate / maxTransfer conns :=
    div_nonneg (by linarith [hcr.1]) (le_of_lt hmpos)
  have hratio1 : c.transferRate / maxTransfer conns ≤ 1 :=
    (div_le_one hmpos).mpr hle
  have hmargin : (0:ℚ) ≤ height - 100 := by norm_num [height]
  constructor
  · show 0 ≤ c.transferRate / maxTransfer conns * (height - 100)
    exact mul_nonneg hratio0 hmargin
  · show c.transferRate / maxTransfer conns * (height - 100) ≤ height - 100
    nlinarith

/-- Witness for C4: a one-channel snapshot with rate 3000. -/
theorem bar_height_bounded_witness :
    0 ≤ (layoutBar 1 0 3000 (maxTransfer [Connection.mk "a" 3000])).barHeight ∧
      (layoutBar 1 0 3000 (maxTransfer [Connection.mk "a" 3000])).barHeight
        ≤ height - 100 :=
  bar_height_bounded [Connection.mk "a" 3000]
    (by
      intro c hc
      rw [List.mem_singleton.mp hc]
      norm_num [minRate, maxRate])
    (layoutBar 1 0 3000 (maxTransfer [Connection.mk "a" 3000]))
    (by simp [layout, layoutFrom])

/-- C5: the normalization maximum (the `maxTransfer` fold starting at `0`) is
greater than or equal to every individual channel's rate in the same
snapshot. -/
theorem maxTransfer_ge_each_rate (conns : List Connection) (c : Connection)
    (hc : c ∈ conns) : c.transferRate ≤ maxTransfer conns :=
  rate_le_maxTransfer conns c hc

/-- Witness for C5 on a concrete two-channel snapshot. -/
theorem maxTransfer_ge_each_rate_witness :
    (Connection.mk "a" 3).transferRate
      ≤ maxTransfer [Connection.mk "a" 3, Connection.mk "b" 7] :=
  maxTransfer_ge_each_rate [Connection.mk "a" 3, Connection.mk "b" 7]
    (Connection.mk "a" 3) (List.mem_cons_self _ _)

/-- C6: bar x-positions strictly increase with channel index, and consecutive
bars do not overlap: the right edge of bar `i` (its `x` plus `barWidth`) is at
most the left edge of bar `i + 1`. -/
theorem bars_ordered_disjoint (conns : List Connection) (i : ℕ)
    (h1 : i < (layout conns).length) (h2 : i + 1 < (layout conns).length)
    (h3 : i < conns.length) (h4 : i + 1 < conns.length) :
    ((layout conns).get ⟨i, h1⟩).x < ((layout conns).get ⟨i + 1, h2⟩).x ∧
    ((layout conns).get ⟨i, h1⟩).x + ((layout conns).get ⟨i, h1⟩).barWidth
      ≤ ((layout conns).get ⟨i + 1, h2⟩).x := by
  rw [layout_get conns i h1 h3, layout_get conns (i + 1) h2 h4]
  have hn : 0 < conns.length := by omega
  have hnq : (0:ℚ) < (conns.length : ℚ) := by exact_mod_cast hn
  have hbw : 0 < width / ((conns.length : ℚ) * 2) := by
    apply div_pos
    · norm_num [width]
    · linarith
  simp only [layoutBar]
  constructor
  · push_cast
    nlinarith [hbw]
  · push_cast
    nlinarith [hbw]

/-- Witness for C6 on the two-channel snapshot, consecutive pair (0, 1). -/
theorem bars_ordered_disjoint_witness :
    ((layout (mkConnections 2)).get ⟨0, by decide⟩).x
        < ((layout (mkConnections 2)).get ⟨0 + 1, by decide⟩).x ∧
    ((layout (mkConnections 2)).get ⟨0, by decide⟩).x
        + ((layout (mkConnections 2)).get ⟨0, by decide⟩).barWidth
      ≤ ((layout (mkConnections 2)).get ⟨0 + 1, by decide⟩).x :=
  bars_ordered_disjoint (mkConnections 2) 0 (by decide) (by decide) (by decide) (by decide)

/-- C7: the layout is a pure function of the rate snapshot and the geometry
constants: any two connection lists with the same rate snapshot — in
particular the same list evaluated twice — produce identical geometry
(barWidth, heights, x, y and label anchors). -/
theorem layout_depends_only_on_rates (c₁ c₂ : List Connection)
    (h : c₁.map Connection.transferRate = c₂.map Connection.transferRate) :
    layout c₁ = layout c₂ := by
  have hlen : c₁.length = c₂.length := by
    have := congrArg List.length h
    simpa using this
  unfold layout
  rw [hlen, maxTransfer_congr c₁ c₂ h]
  exact layoutFrom_congr c₂.length (maxTransfer c₂) c₁ c₂ 0 h

/-- Witness for C7: two snapshots with equal rates but different identifiers
yield the same geometry. -/
theorem layout_depends_only_on_rates_witness :
    layout [Connection.mk "a" 5] = layout [Connection.mk "b" 5] :=
  layout_depends_only_on_rates [Connection.mk "a" 5] [Connection.mk "b" 5] rfl

/-- C8: if the font cannot be loaded, construction fails with a thrown error
that propagates to `main`, the line `Error: Font file not found.` is written
to the error stream, and the process exits with status 1; on normal window
close the process exits with status 0 and writes nothing to the error
stream. -/
theorem font_failure_exit_codes :
    mainEntry false = (1, some "Error: Font file not found.") ∧
      mainEntry true = (0, none) :=
  ⟨rfl, rfl⟩

/-- C9: immediately after construction, before any tick, every channel's rate
equals `0`, which lies outside `[minRate, maxRate]` (it is strictly below
`minRate = 1000`); the in-range invariant therefore holds only from the first
tick onward. -/
theorem initial_rates_zero_out_of_range (n : ℕ) :
    ∀ c ∈ mkConnections n,
      c.transferRate = 0 ∧ ¬ (minRate ≤ c.transferRate ∧ c.transferRate ≤ maxRate) := by
  intro c hc
  obtain ⟨i, hi, rfl⟩ := List.mem_map.mp hc
  refine ⟨rfl, ?_⟩
  intro hcontra
  have h1 := hcontra.1
  norm_num [minRate] at h1

/-- Witness for C9 at the concrete constructed state with one connection. -/
theorem initial_rates_zero_out_of_range_witness :
    (Connection.mk "Conn-1" 0).transferRate = 0 ∧
      ¬ (minRate ≤ (Connection.mk "Conn-1" 0).transferRate ∧
          (Connection.mk "Conn-1" 0).transferRate ≤ maxRate) :=
  initial_rates_zero_out_of_range 1 (Connection.mk "Conn-1" 0) (by decide)

/-- C10: a simulation tick mutates only the stored rates: `simulateAll`
preserves every channel's identifier, the number of channels and their
order. -/
theorem simulateAll_preserves_ids (conns : List Connection) (u : ℕ → ℚ) :
    (simulateAll conns u).length = conns.length ∧
      (simulateAll conns u).map Connection.id = conns.map Connection.id :=
  ⟨simulateAllFrom_length u conns 0, simulateAllFrom_map_id u conns 0⟩

end BandwidthMonitor
